import Mathlib

/-!
# Fortify job-orchestration core: shallow embedding and verification

This file embeds, in Lean 4, the job-orchestration and GitHub-delivery core of
the `strin/fortify` repository and proves (or refutes) the frozen claims about
it.  Each definition mirrors a specific Python function of the source tree:

* `fix_agent/models/job.py`      — `FixJob` record, `to_dict` / `from_dict`;
* `fix_agent/utils/queue.py`     — `FixJobQueue` (Redis lists + hashes);
* `fix_agent/server.py`          — the `cancel_fix_job` HTTP endpoint;
* `scan_agent/utils/github_client.py` — webhook signature verification;
* `scan_agent/server.py`         — the `/webhooks/github` endpoint;
* `scan-agent/src/utils/queue.py` — the older `JobQueue` (`complete_job`, `fail_job`);
* `scan-agent/fix_agent/workers/fixer.py` — git-object upload, branch-ref
  creation/force-update, and the fallback native push.

Redis is modelled as explicit state (lists of ids plus an association list for
the job hash); `datetime.utcnow()` values are supplied as explicit parameters;
outbound HTTP responses are supplied as explicit inputs.  Python's
`datetime` instants are modelled as natural numbers and `isoformat` /
`fromisoformat` as a little-endian base-10 digit encoding and its decoder
(the textual details of the ISO format are irrelevant to every claim; what
matters is that the encoder is what `to_dict` applies and the decoder is what
`from_dict` applies, and that the library pair is lossless).
-/

namespace Fortify

/-- Model of a Python `datetime` instant (e.g. microseconds since the epoch). -/
abbrev DateTime := Nat

/-- Fuel-driven little-endian base-10 digit extraction; `natDigits` below
supplies `n` itself as fuel, which always suffices. -/
def natDigitsF : Nat → Nat → List Nat
  | 0, n => [n]
  | fuel + 1, n => if n < 10 then [n] else n % 10 :: natDigitsF fuel (n / 10)

/-- Model of `datetime.isoformat`: a lossless textual rendering of the
instant, represented as its base-10 digit string (little-endian). -/
def DateTime.isoformat (d : DateTime) : List Nat := natDigitsF d d

/-- Model of `datetime.fromisoformat`: decode the digit string back to the
instant. -/
def DateTime.fromisoformat (l : List Nat) : DateTime :=
  l.foldr (fun d acc => d + 10 * acc) 0

theorem natDigitsF_spec (fuel n : Nat) (h : n ≤ fuel) :
    DateTime.fromisoformat (natDigitsF fuel n) = n := by
  induction fuel generalizing n with
  | zero =>
    interval_cases n
    rfl
  | succ fuel ih =>
    rw [natDigitsF]
    by_cases h10 : n < 10
    · simp [h10, DateTime.fromisoformat]
    · have hdiv : n / 10 ≤ fuel := by
        have : n / 10 < n := Nat.div_lt_self (by omega) (by omega)
        omega
      simp only [h10, if_false, DateTime.fromisoformat, List.foldr_cons]
      have := ih (n / 10) hdiv
      simp only [DateTime.fromisoformat] at this
      rw [this]
      exact Nat.mod_add_div n 10

/-- The decoder `fromisoformat` is a left inverse of `isoformat` (the library round-trip
used by `FixJob.to_dict` / `FixJob.from_dict`). -/
theorem fromisoformat_isoformat (d : DateTime) :
    DateTime.fromisoformat d.isoformat = d :=
  natDigitsF_spec d d (Nat.le_refl d)

/-! ## `fix_agent/models/job.py` — the fix-job record -/

/-- Source `FixJobType` enum. -/
inductive FixJobType
  | VULNERABILITY_FIX
  | SECURITY_ENHANCEMENT
deriving DecidableEq, Repr

/-- Source `FixJobType.value` (the `str` payload of the enum member). -/
def FixJobType.value : FixJobType → String
  | .VULNERABILITY_FIX => "VULNERABILITY_FIX"
  | .SECURITY_ENHANCEMENT => "SECURITY_ENHANCEMENT"

/-- Enum lookup `FixJobType(s)` as performed by pydantic validation. -/
def FixJobType.ofValue : String → Option FixJobType
  | "VULNERABILITY_FIX" => some .VULNERABILITY_FIX
  | "SECURITY_ENHANCEMENT" => some .SECURITY_ENHANCEMENT
  | _ => none

/-- Source `FixJobStatus` enum (`PENDING → IN_PROGRESS → COMPLETED | FAILED | CANCELLED`). -/
inductive FixJobStatus
  | PENDING
  | IN_PROGRESS
  | COMPLETED
  | FAILED
  | CANCELLED
deriving DecidableEq, Repr

/-- Source `FixJobStatus.value`. -/
def FixJobStatus.value : FixJobStatus → String
  | .PENDING => "PENDING"
  | .IN_PROGRESS => "IN_PROGRESS"
  | .COMPLETED => "COMPLETED"
  | .FAILED => "FAILED"
  | .CANCELLED => "CANCELLED"

/-- Enum lookup `FixJobStatus(s)` as performed by pydantic validation. -/
def FixJobStatus.ofValue : String → Option FixJobStatus
  | "PENDING" => some .PENDING
  | "IN_PROGRESS" => some .IN_PROGRESS
  | "COMPLETED" => some .COMPLETED
  | "FAILED" => some .FAILED
  | "CANCELLED" => some .CANCELLED
  | _ => none

/-- A fix job is terminal when no further lifecycle transition is permitted. -/
def FixJobStatus.isTerminal : FixJobStatus → Bool
  | .COMPLETED | .FAILED | .CANCELLED => true
  | _ => false

/-- Source `VulnerabilityData` pydantic model. -/
structure VulnerabilityData where
  title : String
  filePath : String
  startLine : Int
  endLine : Option Int
  codeSnippet : String
  severity : String
  category : String
  description : String
  recommendation : String
deriving DecidableEq, Repr

/-- Source `FixOptions` pydantic model (`branchPrefixVal` renders the source field
`branchPrefix`). -/
structure FixOptions where
  createBranch : Bool
  branchPrefixVal : String
  createPullRequest : Bool
  prTitle : String
  prDescription : String
deriving DecidableEq, Repr

/-- Source `FixJobData` pydantic model. -/
structure FixJobData where
  vulnerabilityId : String
  scanJobId : String
  repositoryUrl : String
  branch : String
  commitSha : Option String
  vulnerability : VulnerabilityData
  fixOptions : FixOptions
deriving DecidableEq, Repr

/-- Source `FixResult` pydantic model.  Python's `confidence: float` is modelled as a
rational: `to_dict`/`from_dict` pass the numeric value through structurally,
so its exact carrier type plays no role in any claim. -/
structure FixResult where
  success : Bool
  branchName : Option String
  commitSha : Option String
  pullRequestUrl : Option String
  pullRequestId : Option Int
  filesModified : List String
  fixApplied : String
  confidence : Rat
deriving DecidableEq, Repr

/-- Source `FixJob` pydantic model (the job record stored in the Redis hash). -/
structure FixJob where
  id : String
  type : FixJobType
  status : FixJobStatus
  data : FixJobData
  result : Option FixResult
  error : Option String
  created_at : DateTime
  updated_at : DateTime
  started_at : Option DateTime
  finished_at : Option DateTime
deriving DecidableEq, Repr

/-- The dictionary produced by `FixJob.to_dict`: enum fields become their
`.value` strings, datetimes become their `isoformat` strings (or `None`),
and the nested pydantic models pass through as structural dictionaries
(`.dict()` / `parse_obj` are mutually inverse field-for-field copies, so the
sub-dictionaries are represented by the records themselves). -/
structure FixJobDict where
  id : String
  type : String
  status : String
  data : FixJobData
  result : Option FixResult
  error : Option String
  created_at : Option (List Nat)
  updated_at : Option (List Nat)
  started_at : Option (List Nat)
  finished_at : Option (List Nat)
deriving DecidableEq, Repr

/-- Source `FixJob.to_dict`. -/
def FixJob.to_dict (j : FixJob) : FixJobDict :=
  { id := j.id
    type := j.type.value
    status := j.status.value
    data := j.data
    result := j.result
    error := j.error
    created_at := some j.created_at.isoformat
    updated_at := some j.updated_at.isoformat
    started_at := j.started_at.map DateTime.isoformat
    finished_at := j.finished_at.map DateTime.isoformat }

/-- Source `FixJob.from_dict`: decode the datetime strings (`fromisoformat`), then
run pydantic validation (`parse_obj`), which decodes the enum strings and
fails (`none`) on an unknown enum value or a missing required datetime. -/
def FixJob.from_dict (d : FixJobDict) : Option FixJob :=
  match FixJobType.ofValue d.type, FixJobStatus.ofValue d.status,
      d.created_at, d.updated_at with
  | some ty, some st, some c, some u =>
    some
      { id := d.id
        type := ty
        status := st
        data := d.data
        result := d.result
        error := d.error
        created_at := DateTime.fromisoformat c
        updated_at := DateTime.fromisoformat u
        started_at := d.started_at.map DateTime.fromisoformat
        finished_at := d.finished_at.map DateTime.fromisoformat }
  | _, _, _, _ => none

theorem fixJobType_ofValue_value (t : FixJobType) :
    FixJobType.ofValue t.value = some t := by
  cases t <;> rfl

theorem fixJobStatus_ofValue_value (s : FixJobStatus) :
    FixJobStatus.ofValue s.value = some s := by
  cases s <;> rfl

theorem map_fromisoformat_map_isoformat (o : Option DateTime) :
    Option.map (DateTime.fromisoformat ∘ DateTime.isoformat) o = o := by
  cases o with
  | none => rfl
  | some d => simp [fromisoformat_isoformat]

/-- C9: `from_dict ∘ to_dict` is the identity on fix-job records. -/
theorem C9_fixjob_roundtrip (j : FixJob) :
    FixJob.from_dict (FixJob.to_dict j) = some j := by
  unfold FixJob.to_dict FixJob.from_dict
  rw [fixJobType_ofValue_value, fixJobStatus_ofValue_value]
  simp [fromisoformat_isoformat, Option.map_map, map_fromisoformat_map_isoformat]

/-! ## `fix_agent/utils/queue.py` — the Redis-backed fix-job queue

Redis state is explicit: `pending`/`processing`/`completed`/`failed` are the
four `FIX_JOBS_*` lists (Lean list head = Redis list left end, so `LPUSH`
conses and `BRPOPLPUSH` pops `getLast?`), and `jobs` is the collection of
per-job hashes (`fix_job_key(id) → record`).  The auxiliary
`fix_job_status_key` mirror hash only duplicates `job.status` and is not
consulted by any of the operations under study, so it is not modelled. -/

/-- Redis `HSET` over the per-job hash collection (overwrite semantics:
the newest binding for a key shadows older ones). -/
def hset (l : List (String × FixJob)) (k : String) (v : FixJob) :
    List (String × FixJob) :=
  (k, v) :: l

/-- Redis `HGETALL fix_job_key(k)` (`none` when the hash is absent). -/
def hget : List (String × FixJob) → String → Option FixJob
  | [], _ => none
  | (k, v) :: rest, key => if k = key then some v else hget rest key

/-- Redis `LREM key 1 x`: remove the first occurrence of `x`, scanning from
the head. -/
def lrem1 : List String → String → List String
  | [], _ => []
  | x :: rest, y => if x = y then rest else x :: lrem1 rest y

/-- The observable Redis state of one `FixJobQueue`. -/
structure QueueState where
  pending : List String
  processing : List String
  completed : List String
  failed : List String
  jobs : List (String × FixJob)
deriving DecidableEq, Repr

/-- Source `FixJobQueue.enqueue_fix_job`: store the record and `LPUSH` the id onto
`FIX_JOBS_PENDING`. -/
def enqueue_fix_job (j : FixJob) (s : QueueState) : QueueState :=
  { s with jobs := hset s.jobs j.id j, pending := j.id :: s.pending }

/-- The in-progress job record written by `claim_fix_job`: the loaded
record with its `id` field overwritten by the popped id
(`job_data['id'] = job_id`), status `IN_PROGRESS`, `started_at` stamped,
and `updated_at` stamped by `update_fix_job`. -/
def claimedJob (now : DateTime) (jobId : String) (j0 : FixJob) : FixJob :=
  { j0 with id := jobId, status := FixJobStatus.IN_PROGRESS,
            started_at := some now, updated_at := now }

/-- Second half of `FixJobQueue.claim_fix_job`, after `BRPOPLPUSH` popped
`jobId`: load the record; on a miss, `LREM` the orphaned id back out of
`processing` and return `none`; otherwise stamp and persist the claimed
job. -/
def claimLoaded (now : DateTime) (jobId : String) (s : QueueState) :
    Option FixJob × QueueState :=
  match hget s.jobs jobId with
  | none =>
    (none, { s with pending := s.pending.dropLast,
                    processing := lrem1 (jobId :: s.processing) jobId })
  | some j0 =>
    (some (claimedJob now jobId j0),
     { s with pending := s.pending.dropLast,
              processing := jobId :: s.processing,
              jobs := hset s.jobs jobId (claimedJob now jobId j0) })

/-- Source `FixJobQueue.claim_fix_job`: `BRPOPLPUSH` from `pending` to `processing`
(`none` on timeout, i.e. empty list), then load, stamp and persist
(`claimLoaded`). -/
def claim_fix_job (now : DateTime) (s : QueueState) :
    Option FixJob × QueueState :=
  match s.pending.getLast? with
  | none => (none, s)
  | some jobId => claimLoaded now jobId s

/-- Source `FixJobQueue.get_fix_job`: load the record and overwrite its `id` field
with the requested id (`job_data['id'] = job_id`). -/
def get_fix_job (s : QueueState) (jobId : String) : Option FixJob :=
  (hget s.jobs jobId).map (fun j => { j with id := jobId })

/-- Source `FixJobQueue.complete_fix_job`: stamp `COMPLETED` / `finished_at`,
persist, and move the id from `processing` to `completed`. -/
def complete_fix_job (now : DateTime) (j : FixJob) (s : QueueState) : QueueState :=
  let j' : FixJob := { j with status := FixJobStatus.COMPLETED, finished_at := some now }
  { s with jobs := hset s.jobs j'.id j',
           processing := lrem1 s.processing j'.id,
           completed := j'.id :: s.completed }

/-- Source `FixJobQueue.fail_fix_job`: stamp `FAILED` / `finished_at` / `error`,
persist, and move the id from `processing` to `failed`. -/
def fail_fix_job (now : DateTime) (j : FixJob) (errorMessage : String)
    (s : QueueState) : QueueState :=
  let j' : FixJob :=
    { j with status := FixJobStatus.FAILED, finished_at := some now,
             error := some errorMessage }
  { s with jobs := hset s.jobs j'.id j',
           processing := lrem1 s.processing j'.id,
           failed := j'.id :: s.failed }

/-! ## `fix_agent/server.py` — the `POST /fix/jobs/{id}/cancel` endpoint -/

/-- Outcome of the cancel endpoint, as seen by the HTTP caller. -/
inductive CancelResponse
  | notFound
  | badStatus (detail : String)
  | cancelled
deriving DecidableEq, Repr

/-- The record written by the cancel endpoint: status `CANCELLED`,
`finished_at` stamped, the fixed error string, and `updated_at` stamped by
`update_fix_job`. -/
def cancelledJob (now : DateTime) (j : FixJob) : FixJob :=
  { j with status := FixJobStatus.CANCELLED, finished_at := some now,
           error := some "Cancelled by user request", updated_at := now }

/-- Source `cancel_fix_job` endpoint (`fix_agent/server.py`): 404 when the record is
missing; 400 when the status is already terminal; otherwise persist the
cancelled record.  Note that the endpoint takes no reason argument and
performs no `LREM`: the id stays in whatever Redis list it currently
occupies. -/
def cancel_fix_job (now : DateTime) (jobId : String) (s : QueueState) :
    CancelResponse × QueueState :=
  match get_fix_job s jobId with
  | none => (.notFound, s)
  | some j =>
    if j.status = FixJobStatus.PENDING ∨ j.status = FixJobStatus.IN_PROGRESS then
      (.cancelled, { s with jobs := hset s.jobs jobId (cancelledJob now j) })
    else (.badStatus j.status.value, s)

/-- Iterated claims: the state after a sequence of further `claim_fix_job`
calls (one per supplied clock value). -/
def claimSeq : List DateTime → QueueState → QueueState
  | [], s => s
  | t :: ts, s => claimSeq ts (claim_fix_job t s).2

theorem hget_hset_self (l : List (String × FixJob)) (k : String) (v : FixJob) :
    hget (hset l k v) k = some v := by
  simp [hset, hget]

theorem mem_of_mem_dropLast {α : Type} {x : α} {l : List α}
    (h : x ∈ l.dropLast) : x ∈ l :=
  (List.dropLast_sublist l).subset h

theorem mem_of_getLast?_eq {α : Type} {l : List α} {x : α}
    (h : l.getLast? = some x) : x ∈ l := by
  obtain ⟨hn, hx⟩ := List.mem_getLast?_eq_getLast (x := x) h
  rw [hx]
  exact List.getLast_mem hn

theorem claim_fix_job_empty (now : DateTime) (s : QueueState)
    (h : s.pending.getLast? = none) : claim_fix_job now s = (none, s) := by
  unfold claim_fix_job
  rw [h]

theorem claim_fix_job_pop (now : DateTime) (s : QueueState) (jobId : String)
    (h : s.pending.getLast? = some jobId) :
    claim_fix_job now s = claimLoaded now jobId s := by
  unfold claim_fix_job
  rw [h]

theorem claimLoaded_miss (now : DateTime) (jobId : String) (s : QueueState)
    (h : hget s.jobs jobId = none) :
    claimLoaded now jobId s =
      (none, { s with pending := s.pending.dropLast,
                      processing := lrem1 (jobId :: s.processing) jobId }) := by
  unfold claimLoaded
  rw [h]

theorem claimLoaded_hit (now : DateTime) (jobId : String) (s : QueueState)
    (j0 : FixJob) (h : hget s.jobs jobId = some j0) :
    claimLoaded now jobId s =
      (some (claimedJob now jobId j0),
       { s with pending := s.pending.dropLast,
                processing := jobId :: s.processing,
                jobs := hset s.jobs jobId (claimedJob now jobId j0) }) := by
  unfold claimLoaded
  rw [h]

/-- A claim never returns a job whose id is not in `pending`, and never adds
an id to `pending`. -/
theorem claim_fix_job_pending_inv (now : DateTime) (s : QueueState)
    (jobId : String) (h : jobId ∉ s.pending) :
    jobId ∉ (claim_fix_job now s).2.pending ∧
      ∀ k, (claim_fix_job now s).1 = some k → k.id ≠ jobId := by
  cases hl : s.pending.getLast? with
  | none =>
    rw [claim_fix_job_empty now s hl]
    exact ⟨h, by intro k hk; cases hk⟩
  | some poppedId =>
    rw [claim_fix_job_pop now s poppedId hl]
    have hmem : poppedId ∈ s.pending := mem_of_getLast?_eq hl
    have hne : poppedId ≠ jobId := fun he => h (he ▸ hmem)
    have hnd : jobId ∉ s.pending.dropLast := fun hd => h (mem_of_mem_dropLast hd)
    cases hj : hget s.jobs poppedId with
    | none =>
      rw [claimLoaded_miss now poppedId s hj]
      exact ⟨hnd, by intro k hk; cases hk⟩
    | some j0 =>
      rw [claimLoaded_hit now poppedId s j0 hj]
      refine ⟨hnd, ?_⟩
      intro k hk
      dsimp only at hk
      injection hk with hk
      rw [← hk]
      exact hne

/-- Iteration `claimSeq` preserves absence from `pending`. -/
theorem claimSeq_pending_inv (nows : List DateTime) (s : QueueState)
    (jobId : String) (h : jobId ∉ s.pending) :
    jobId ∉ (claimSeq nows s).pending := by
  induction nows generalizing s with
  | nil => exact h
  | cons t ts ih =>
    exact ih _ ((claim_fix_job_pending_inv t s jobId h).1)

/-- C1: claiming from a queue whose next-to-pop pending id has a stored
record atomically moves that id from `pending` to `processing`, returns the
job stamped `IN_PROGRESS` with `started_at = now`, persists the update, and
— because the pop removed the only occurrence of the id from `pending` —
no later claim call, after any number of intervening claims, can ever
return a job with that id again. -/
theorem C1_claim_at_most_once (s : QueueState) (now : DateTime)
    (ids : List String) (jobId : String) (j : FixJob)
    (hp : s.pending = ids ++ [jobId])
    (hj : hget s.jobs jobId = some j)
    (honce : jobId ∉ ids) :
    ∃ j', (claim_fix_job now s).1 = some j' ∧
      j'.id = jobId ∧
      j'.status = FixJobStatus.IN_PROGRESS ∧
      j'.started_at = some now ∧
      get_fix_job (claim_fix_job now s).2 jobId = some j' ∧
      (claim_fix_job now s).2.pending = ids ∧
      (claim_fix_job now s).2.processing = jobId :: s.processing ∧
      ∀ nows now' k,
        (claim_fix_job now' (claimSeq nows (claim_fix_job now s).2)).1 = some k →
          k.id ≠ jobId := by
  have hlast : s.pending.getLast? = some jobId := by
    rw [hp]; exact List.getLast?_concat ids
  have hdrop : s.pending.dropLast = ids := by
    rw [hp]; exact List.dropLast_concat
  have hred : claim_fix_job now s =
      (some (claimedJob now jobId j),
       { s with pending := s.pending.dropLast,
                processing := jobId :: s.processing,
                jobs := hset s.jobs jobId (claimedJob now jobId j) }) := by
    rw [claim_fix_job_pop now s jobId hlast, claimLoaded_hit now jobId s j hj]
  refine ⟨claimedJob now jobId j, by rw [hred], rfl, rfl, rfl, ?_, ?_, ?_, ?_⟩
  · rw [hred]
    simp only [get_fix_job, hget_hset_self, Option.map_some]
    rfl
  · rw [hred]
    exact hdrop
  · rw [hred]
  · intro nows now' k hk
    have hnp : jobId ∉ (claim_fix_job now s).2.pending := by
      rw [hred]
      show jobId ∉ s.pending.dropLast
      rw [hdrop]
      exact honce
    have hinv := claim_fix_job_pending_inv now'
      (claimSeq nows (claim_fix_job now s).2) jobId
      (claimSeq_pending_inv nows _ jobId hnp)
    exact hinv.2 k hk

/-- Concrete sample vulnerability used by the closed-state witnesses. -/
def vulnA : VulnerabilityData :=
  { title := "SQL injection", filePath := "app/db.py", startLine := 10,
    endLine := some 12, codeSnippet := "q = a + b", severity := "HIGH",
    category := "injection", description := "string-built query",
    recommendation := "use parameters" }

/-- Concrete sample fix options. -/
def optsA : FixOptions :=
  { createBranch := true, branchPrefixVal := "fix", createPullRequest := true,
    prTitle := "Fix SQL injection", prDescription := "auto fix" }

/-- Concrete sample fix-job payload. -/
def dataA : FixJobData :=
  { vulnerabilityId := "vuln-1", scanJobId := "scan-1",
    repositoryUrl := "https://github.com/acme/app.git", branch := "main",
    commitSha := none, vulnerability := vulnA, fixOptions := optsA }

/-- Concrete sample pending job. -/
def jobA : FixJob :=
  { id := "job-1", type := FixJobType.VULNERABILITY_FIX,
    status := FixJobStatus.PENDING, data := dataA, result := none,
    error := none, created_at := 100, updated_at := 100,
    started_at := none, finished_at := none }

/-- The queue state holding exactly the enqueued `jobA`. -/
def stateA : QueueState :=
  enqueue_fix_job jobA
    { pending := [], processing := [], completed := [], failed := [], jobs := [] }

/-- C1 witness: the claim theorem applied to the concrete one-job queue. -/
theorem C1_claim_at_most_once_witness :
    ∃ j', (claim_fix_job 200 stateA).1 = some j' ∧
      j'.id = "job-1" ∧
      j'.status = FixJobStatus.IN_PROGRESS ∧
      j'.started_at = some 200 ∧
      get_fix_job (claim_fix_job 200 stateA).2 "job-1" = some j' ∧
      (claim_fix_job 200 stateA).2.pending = [] ∧
      (claim_fix_job 200 stateA).2.processing = ["job-1"] ∧
      ∀ nows now' k,
        (claim_fix_job now' (claimSeq nows (claim_fix_job 200 stateA).2)).1 = some k →
          k.id ≠ "job-1" :=
  C1_claim_at_most_once stateA 200 [] "job-1" jobA rfl rfl (by simp)

/-- C2 (recorded bug): cancelling a PENDING job leaves its id in the
`pending` list (the endpoint performs no `LREM`), and the next
`claim_fix_job` pops it and unconditionally stamps `IN_PROGRESS`, reviving
a CANCELLED — terminal — job back to IN_PROGRESS, both in the returned job
and in the persisted record. -/
theorem C2_cancel_then_claim_revives :
    ((get_fix_job (cancel_fix_job 200 "job-1" stateA).2 "job-1").map
        FixJob.status = some FixJobStatus.CANCELLED) ∧
    ((cancel_fix_job 200 "job-1" stateA).2.pending = ["job-1"]) ∧
    (((claim_fix_job 300 (cancel_fix_job 200 "job-1" stateA).2).1).map
        FixJob.status = some FixJobStatus.IN_PROGRESS) ∧
    ((get_fix_job (claim_fix_job 300 (cancel_fix_job 200 "job-1" stateA).2).2
        "job-1").map FixJob.status = some FixJobStatus.IN_PROGRESS) := by
  decide

/-- C3 counterexample: on the concrete PENDING job, the cancel endpoint
marks the job CANCELLED but does *not* remove its id from the `pending`
list, and the error recorded is the fixed string `"Cancelled by user
request"` (the endpoint accepts no caller-supplied reason). -/
theorem C3_counterexample :
    ((get_fix_job (cancel_fix_job 200 "job-1" stateA).2 "job-1").map
        FixJob.status = some FixJobStatus.CANCELLED) ∧
    ((cancel_fix_job 200 "job-1" stateA).2.pending = ["job-1"]) ∧
    ((get_fix_job (cancel_fix_job 200 "job-1" stateA).2 "job-1").map
        FixJob.error = some (some "Cancelled by user request")) := by
  decide

theorem cancel_fix_job_ok (now : DateTime) (jobId : String) (s : QueueState)
    (j : FixJob) (hj : get_fix_job s jobId = some j)
    (hs : j.status = FixJobStatus.PENDING ∨ j.status = FixJobStatus.IN_PROGRESS) :
    cancel_fix_job now jobId s =
      (CancelResponse.cancelled,
       { s with jobs := hset s.jobs jobId (cancelledJob now j) }) := by
  unfold cancel_fix_job
  rw [hj]
  dsimp only
  rw [if_pos hs]

/-- C3 as amended: for a job in a non-terminal state, the cancel endpoint
answers `cancelled`, persists the record with status CANCELLED, the fixed
error string `"Cancelled by user request"`, and stamped
`finished_at`/`updated_at` — and leaves every Redis list (in particular
`pending` and `processing`) unchanged. -/
theorem C3_cancel_marks_cancelled (s : QueueState) (now : DateTime)
    (jobId : String) (j : FixJob)
    (hj : get_fix_job s jobId = some j)
    (hs : j.status = FixJobStatus.PENDING ∨ j.status = FixJobStatus.IN_PROGRESS) :
    (cancel_fix_job now jobId s).1 = CancelResponse.cancelled ∧
    get_fix_job (cancel_fix_job now jobId s).2 jobId = some (cancelledJob now j) ∧
    (cancelledJob now j).status = FixJobStatus.CANCELLED ∧
    (cancelledJob now j).error = some "Cancelled by user request" ∧
    (cancelledJob now j).finished_at = some now ∧
    (cancel_fix_job now jobId s).2.pending = s.pending ∧
    (cancel_fix_job now jobId s).2.processing = s.processing := by
  have hid : j.id = jobId := by
    simp only [get_fix_job] at hj
    cases hg : hget s.jobs jobId with
    | none => rw [hg] at hj; cases hj
    | some j0 =>
      rw [hg] at hj
      simp only [Option.map_some', Option.some.injEq] at hj
      rw [← hj]
  have hred := cancel_fix_job_ok now jobId s j hj hs
  refine ⟨by rw [hred], ?_, rfl, rfl, rfl, by rw [hred], by rw [hred]⟩
  rw [hred]
  simp only [get_fix_job, hget_hset_self, Option.map_some', Option.some.injEq]
  rw [← hid]
  rfl

/-- C3 amended-claim witness: applied to the concrete PENDING job. -/
theorem C3_cancel_marks_cancelled_witness :
    (cancel_fix_job 200 "job-1" stateA).1 = CancelResponse.cancelled ∧
    get_fix_job (cancel_fix_job 200 "job-1" stateA).2 "job-1" =
      some (cancelledJob 200 jobA) ∧
    (cancelledJob 200 jobA).status = FixJobStatus.CANCELLED ∧
    (cancelledJob 200 jobA).error = some "Cancelled by user request" ∧
    (cancelledJob 200 jobA).finished_at = some 200 ∧
    (cancel_fix_job 200 "job-1" stateA).2.pending = stateA.pending ∧
    (cancel_fix_job 200 "job-1" stateA).2.processing = stateA.processing :=
  C3_cancel_marks_cancelled stateA 200 "job-1" jobA (by decide) (Or.inl (by decide))

/-! ## `scan-agent/src/utils/queue.py` and `scan-agent/src/models/job.py` —
the older scan-job queue (`JobQueue`) -/

/-- Polymorphic Redis/assoc-hash read (`HGET`); newest binding wins. -/
def assocGet {β : Type} : List (String × β) → String → Option β
  | [], _ => none
  | (k, v) :: rest, key => if k = key then some v else assocGet rest key

/-- Polymorphic hash write (`HSET`). -/
def assocSet {β : Type} (l : List (String × β)) (k : String) (v : β) :
    List (String × β) :=
  (k, v) :: l

namespace ScanSrc

/-- Source `JobStatus` enum of `src/models/job.py` (note: no CANCELLED member). -/
inductive JobStatus
  | pending
  | in_progress
  | completed
  | failed
deriving DecidableEq, Repr

/-- Source `JobType` enum of `src/models/job.py`. -/
inductive JobType
  | SCAN_REPO
  | SCAN_FILE
  | BATCH_SCAN
deriving DecidableEq, Repr

/-- Source `Job` dataclass of `src/models/job.py`.  The opaque `data` and `result`
dictionaries are modelled as string association lists (their contents are
never inspected by the queue operations under study). -/
structure Job where
  id : String
  type : JobType
  status : JobStatus
  data : List (String × String)
  created_at : Fortify.DateTime
  updated_at : Fortify.DateTime
  result : Option (List (String × String))
  error : Option String
deriving DecidableEq, Repr

/-- The observable Redis state of one `JobQueue`: the `pending` and
`processing` id lists plus the `jobs` hash. -/
structure QState where
  pending : List String
  processing : List String
  jobs : List (String × Job)
deriving DecidableEq, Repr

/-- Source `JobQueue.get_job`. -/
def get_job (s : QState) (jobId : String) : Option Job :=
  assocGet s.jobs jobId

/-- Source `JobQueue.update_job`: stamp `updated_at` and rewrite the hash entry. -/
def update_job (now : Fortify.DateTime) (j : Job) (s : QState) : QState :=
  { s with jobs := assocSet s.jobs j.id { j with updated_at := now } }

/-- Source `JobQueue.complete_job`: look the job up; when present, mark COMPLETED,
attach the result, persist (`update_job`), and `LREM` the id from
`processing`.  When the id is unknown the whole call is a silent no-op. -/
def complete_job (now : Fortify.DateTime) (jobId : String)
    (result : List (String × String)) (s : QState) : QState :=
  match get_job s jobId with
  | none => s
  | some j =>
    let s1 := update_job now { j with status := JobStatus.completed, result := some result } s
    { s1 with processing := Fortify.lrem1 s1.processing jobId }

/-- Source `JobQueue.fail_job`: same shape with FAILED and the error string. -/
def fail_job (now : Fortify.DateTime) (jobId : String) (error : String)
    (s : QState) : QState :=
  match get_job s jobId with
  | none => s
  | some j =>
    let s1 := update_job now { j with status := JobStatus.failed, error := some error } s
    { s1 with processing := Fortify.lrem1 s1.processing jobId }

end ScanSrc

/-- C10: for a job id with no record in the jobs hash, `complete_job` and
`fail_job` both return with the queue state entirely unchanged (silent
no-ops, no error surfaced). -/
theorem C10_missing_job_noop (now : DateTime) (jobId : String)
    (result : List (String × String)) (error : String) (s : ScanSrc.QState)
    (h : ScanSrc.get_job s jobId = none) :
    ScanSrc.complete_job now jobId result s = s ∧
    ScanSrc.fail_job now jobId error s = s := by
  constructor
  · unfold ScanSrc.complete_job
    rw [h]
  · unfold ScanSrc.fail_job
    rw [h]

/-- C10 witness: a concrete queue with one unrelated job and a missing id. -/
theorem C10_missing_job_noop_witness :
    ScanSrc.complete_job 500 "missing-id" [("ok", "1")]
        { pending := ["other"], processing := ["other"], jobs := [] } =
      { pending := ["other"], processing := ["other"], jobs := [] } ∧
    ScanSrc.fail_job 500 "missing-id" "boom"
        { pending := ["other"], processing := ["other"], jobs := [] } =
      { pending := ["other"], processing := ["other"], jobs := [] } :=
  C10_missing_job_noop 500 "missing-id" [("ok", "1")] "boom"
    { pending := ["other"], processing := ["other"], jobs := [] } (by decide)

/-! ## `scan_agent/utils/github_client.py` and `scan_agent/server.py` —
webhook authentication and the `/webhooks/github` endpoint

Raw request bodies are byte lists; the HMAC-SHA256 hex digest is an opaque
parameter `hmacHex : String → List Nat → String` (secret, body ↦ digest):
the verifier's own logic is fully embedded, only the crypto primitive is
abstract.  The JSON decoder is likewise a parameter
`jsonParse : List Nat → Option Payload`, where `Payload` is the typed view
of exactly the fields the endpoint reads. -/

/-- Python `str.startswith`, computed on the character list. -/
def strStartsWith (s p : String) : Bool :=
  p.data.isPrefixOf s.data

/-- Python `str.endswith`, computed on the character list. -/
def strEndsWith (s p : String) : Bool :=
  p.data.isSuffixOf s.data

/-- Python slicing `s[n:]`, computed on the character list. -/
def strDrop (s : String) (n : Nat) : String :=
  ⟨s.data.drop n⟩

/-- Python slicing `s[:-n]`, computed on the character list. -/
def strDropRight (s : String) (n : Nat) : String :=
  ⟨s.data.take (s.data.length - n)⟩

namespace ScanAgent

/-- Source `GitHubWebhookHandler.verify_signature`: when no secret is configured
verification is skipped (`true`); otherwise a missing header, a header
without the `sha256=` prefix, or a digest mismatch all yield `false`.
`hmac.compare_digest` is modelled by equality (its constant-time character
is a timing property outside a functional embedding). -/
def verify_signature (hmacHex : String → List Nat → String)
    (webhookSecret : String) (payloadBody : List Nat)
    (signatureHeader : Option String) : Bool :=
  if webhookSecret = "" then true
  else
    match signatureHeader with
    | none => false
    | some h =>
      if strStartsWith h "sha256=" then
        strDrop h 7 == hmacHex webhookSecret payloadBody
      else false

/-- Source `normalize_repo_url` (`scan_agent/server.py`): strip a trailing `.git`. -/
def normalize_repo_url (repoUrl : String) : String :=
  if strEndsWith repoUrl ".git" then strDropRight repoUrl 4 else repoUrl

/-- The fields of a `pull_request` webhook payload read by
`_parse_pull_request_payload` and `_handle_pull_request_event`. -/
structure PRPayload where
  action : String
  number : Nat
  title : String
  headRef : String
  headSha : String
  headRepoCloneUrl : String
  baseRef : String
  baseSha : String
  htmlUrl : String
  userLogin : String
  repoFullName : String
  repoCloneUrl : String
deriving DecidableEq, Repr

/-- One entry of a push payload's `commits` array. -/
structure CommitInfo where
  id : String
  message : String
deriving DecidableEq, Repr

/-- The fields of a `push` webhook payload read by `_parse_push_payload`
and `_handle_push_event`. -/
structure PushPayload where
  ref : String
  commits : List CommitInfo
  pusherName : String
  repoFullName : String
  repoCloneUrl : String
deriving DecidableEq, Repr

/-- Typed view of the JSON body (`json.loads(body)`), restricted to the
shapes the endpoint dispatches on. -/
inductive Payload
  | pullRequest (pr : PRPayload)
  | push (p : PushPayload)
  | other
deriving DecidableEq, Repr

/-- The default push view produced when a `push` event carries none of the
expected fields (every `payload.get` falls back to its default). -/
def emptyPush : PushPayload :=
  { ref := "", commits := [], pusherName := "", repoFullName := "",
    repoCloneUrl := "" }

/-- Result of `GitHubWebhookHandler.parse_webhook_payload`. -/
inductive ParsedEvent
  | pullRequest (pr : PRPayload)
  | push (branch : String) (p : PushPayload)
deriving DecidableEq, Repr

/-- Source `parse_webhook_payload`: only `pull_request` events with a
scan-triggering action and `push` events produce a parsed event; the push
branch is the ref with a `refs/heads/` prefix stripped (else `""`). -/
def parse_webhook_payload (eventType : String) (payload : Payload) :
    Option ParsedEvent :=
  if eventType = "pull_request" then
    match payload with
    | .pullRequest pr =>
      if pr.action = "opened" ∨ pr.action = "synchronize" ∨ pr.action = "reopened"
      then some (.pullRequest pr) else none
    | _ => none
  else if eventType = "push" then
    match payload with
    | .push p =>
      some (.push (if Fortify.strStartsWith p.ref "refs/heads/"
                   then Fortify.strDrop p.ref 11 else "") p)
    | _ => some (.push "" emptyPush)
  else none

/-- A `RepoWebhookMapping` row (tenant mapping looked up by hook id). -/
structure RepoWebhookMapping where
  userId : String
  projectId : String
deriving DecidableEq, Repr

/-- The `scan_options` dictionary attached to webhook-triggered scan jobs,
restricted to the keys the handlers write. -/
structure ScanOptions where
  trigger : String
  prNumber : Option Nat
  prTitle : Option String
  prAction : Option String
  baseBranch : Option String
  headSha : Option String
  baseSha : Option String
  ref : Option String
  commitIds : Option (List String)
  pusher : Option String
deriving DecidableEq, Repr

/-- Source `ScanJobData` as built by the webhook handlers. -/
structure ScanJobData where
  repo_url : String
  branch : String
  scan_options : ScanOptions
deriving DecidableEq, Repr

/-- A scan job record as stored by the server's job queue. -/
structure SJob where
  id : String
  type : ScanSrc.JobType
  status : ScanSrc.JobStatus
  data : ScanJobData
  created_at : DateTime
  updated_at : DateTime
deriving DecidableEq, Repr

/-- The job-queue state mutated by the webhook endpoint. -/
structure SQState where
  pending : List String
  jobs : List (String × SJob)
deriving DecidableEq, Repr

/-- Modelled from the spec: `scan_agent/utils/queue.py` (the `JobQueue`
imported by `scan_agent/server.py`, absent from the provided sources; only
its near-duplicate `src/utils/queue.py` is present) — spec §4.1
`enqueue(type, payload, id?) -> id`: store the job record in state PENDING
under the supplied id and append the id to the `pending` list. -/
def add_job_with_id (jobType : ScanSrc.JobType) (d : ScanJobData)
    (jobId : String) (now : DateTime) (s : SQState) : SQState :=
  let j : SJob := { id := jobId, type := jobType,
                    status := ScanSrc.JobStatus.pending, data := d,
                    created_at := now, updated_at := now }
  { s with jobs := assocSet s.jobs jobId j, pending := s.pending ++ [jobId] }

/-- Source `create_scan_job_with_database`: create the database scan-job record
(its generated id supplied here as `newId`), then enqueue the job in Redis
under that id.  Returns the job id. -/
def create_scan_job_with_database (newId : String) (jobType : ScanSrc.JobType)
    (d : ScanJobData) (now : DateTime) (s : SQState) : String × SQState :=
  (newId, add_job_with_id jobType d newId now s)

/-- Keep the last five commits, as `commits[-5:]` does. -/
def lastFive (l : List CommitInfo) : List CommitInfo :=
  (l.reverse.take 5).reverse

/-- Source `_handle_pull_request_event` (webhook-mapping path): build the PR scan
data and create the scan job. -/
def handle_pull_request_event (newId : String) (now : DateTime)
    (pr : PRPayload) (s : SQState) : String × SQState :=
  let d : ScanJobData :=
    { repo_url := normalize_repo_url pr.headRepoCloneUrl,
      branch := pr.headRef,
      scan_options :=
        { trigger := "pull_request", prNumber := some pr.number,
          prTitle := some pr.title, prAction := some pr.action,
          baseBranch := some pr.baseRef, headSha := some pr.headSha,
          baseSha := some pr.baseSha, ref := none, commitIds := none,
          pusher := none } }
  create_scan_job_with_database newId ScanSrc.JobType.SCAN_REPO d now s

/-- Source `_handle_push_event` (webhook-mapping path): build the push scan data
and create the scan job. -/
def handle_push_event (newId : String) (now : DateTime) (branch : String)
    (p : PushPayload) (s : SQState) : String × SQState :=
  let d : ScanJobData :=
    { repo_url := normalize_repo_url p.repoCloneUrl,
      branch := branch,
      scan_options :=
        { trigger := "push", prNumber := none, prTitle := none,
          prAction := none, baseBranch := none, headSha := none,
          baseSha := none, ref := some p.ref,
          commitIds := some ((lastFive p.commits).map CommitInfo.id),
          pusher := some p.pusherName } }
  create_scan_job_with_database newId ScanSrc.JobType.SCAN_REPO d now s

/-- One inbound webhook request: raw body plus the four headers the
endpoint reads. -/
structure WebhookDelivery where
  body : List Nat
  sigHeader : Option String
  eventHeader : Option String
  deliveryHeader : Option String
  hookIdHeader : Option String
deriving DecidableEq, Repr

/-- The endpoint's observable HTTP outcome. -/
inductive WebhookResponse
  | success (jobId : String)
  | ignored
  | httpError (code : Nat)
deriving DecidableEq, Repr

/-- The `/webhooks/github` endpoint (`scan_agent/server.py
github_webhook`), in source order: verify the signature (403), JSON-decode
the body (400), require the hook-id header (400), resolve the tenant
mapping (404), parse the payload by event type (ignored when it does not
qualify), and create a scan job for a qualifying PR or push event.  The
delivery-id header is read only for logging: no step consults it. -/
def github_webhook (hmacHex : String → List Nat → String) (secret : String)
    (jsonParse : List Nat → Option Payload)
    (mappingLookup : String → Option RepoWebhookMapping)
    (newId : String) (now : DateTime) (req : WebhookDelivery) (s : SQState) :
    WebhookResponse × SQState :=
  if verify_signature hmacHex secret req.body req.sigHeader then
    match jsonParse req.body with
    | none => (.httpError 400, s)
    | some payload =>
      match req.hookIdHeader with
      | none => (.httpError 400, s)
      | some hookId =>
        match mappingLookup hookId with
        | none => (.httpError 404, s)
        | some _mapping =>
          match parse_webhook_payload (req.eventHeader.getD "") payload with
          | none => (.ignored, s)
          | some (.pullRequest pr) =>
            let r := handle_pull_request_event newId now pr s
            (.success r.1, r.2)
          | some (.push branch p) =>
            let r := handle_push_event newId now branch p s
            (.success r.1, r.2)
  else (.httpError 403, s)

end ScanAgent

/-- C8: with a secret configured, a request whose signature header is
absent, lacks the `sha256=` prefix, or whose digest differs from the body's
HMAC is answered 403 with the state untouched — for *every* JSON decoder
`jsonParse`, so the body is rejected before any payload parsing can occur;
and with no secret configured verification is skipped entirely. -/
theorem C8_signature_gate (hmacHex : String → List Nat → String)
    (secret : String) (jsonParse : List Nat → Option ScanAgent.Payload)
    (mappingLookup : String → Option ScanAgent.RepoWebhookMapping)
    (newId : String) (now : DateTime) (req : ScanAgent.WebhookDelivery)
    (s : ScanAgent.SQState)
    (hsec : secret ≠ "")
    (hbad : req.sigHeader = none ∨ ∃ h, req.sigHeader = some h ∧
        (¬ strStartsWith h "sha256=" ∨ strDrop h 7 ≠ hmacHex secret req.body)) :
    ScanAgent.github_webhook hmacHex secret jsonParse mappingLookup newId now
      req s = (ScanAgent.WebhookResponse.httpError 403, s) ∧
    ScanAgent.verify_signature hmacHex "" req.body req.sigHeader = true := by
  have hv : ScanAgent.verify_signature hmacHex secret req.body req.sigHeader
      = false := by
    unfold ScanAgent.verify_signature
    rw [if_neg hsec]
    rcases hbad with hnone | ⟨h, hh, hcase⟩
    · rw [hnone]
    · rw [hh]
      dsimp only
      rcases hcase with hpre | hne
      · simp [hpre]
      · by_cases hp : strStartsWith h "sha256="
        · rw [if_pos hp]
          exact beq_eq_false_iff_ne.mpr hne
        · simp [hp]
  constructor
  · unfold ScanAgent.github_webhook
    rw [hv]
    rfl
  · unfold ScanAgent.verify_signature
    rw [if_pos rfl]

/-- C8 witness: missing signature header with a configured secret. -/
theorem C8_signature_gate_witness :
    ScanAgent.github_webhook (fun _ _ => "aabb") "s3cret" (fun _ => none)
      (fun _ => none) "id-A" 700
      { body := [1, 2, 3], sigHeader := none, eventHeader := some "push",
        deliveryHeader := some "d-1", hookIdHeader := some "hook-1" }
      { pending := [], jobs := [] } =
      (ScanAgent.WebhookResponse.httpError 403, { pending := [], jobs := [] }) ∧
    ScanAgent.verify_signature (fun _ _ => "aabb") "" [1, 2, 3] none = true :=
  C8_signature_gate (fun _ _ => "aabb") "s3cret" (fun _ => none) (fun _ => none)
    "id-A" 700
    { body := [1, 2, 3], sigHeader := none, eventHeader := some "push",
      deliveryHeader := some "d-1", hookIdHeader := some "hook-1" }
    { pending := [], jobs := [] } (by decide) (Or.inl rfl)

/-- Concrete qualifying push payload used for the re-delivery scenario. -/
def pushPayloadX : ScanAgent.PushPayload :=
  { ref := "refs/heads/main", commits := [{ id := "c100", message := "m" }],
    pusherName := "alice", repoFullName := "acme/app",
    repoCloneUrl := "https://github.com/acme/app.git" }

/-- Concrete HMAC stand-in for the scenario. -/
def hmacX : String → List Nat → String := fun _ _ => "d1g3st"

/-- Concrete JSON decoder for the scenario: the body decodes to the push
payload. -/
def jsonParseX : List Nat → Option ScanAgent.Payload :=
  fun _ => some (ScanAgent.Payload.push pushPayloadX)

/-- Concrete tenant-mapping table for the scenario. -/
def mapLookupX : String → Option ScanAgent.RepoWebhookMapping :=
  fun h => if h = "hook-1"
    then some { userId := "user-1", projectId := "proj-1" } else none

/-- A correctly signed inbound delivery with delivery id `d-42`. -/
def deliveryX : ScanAgent.WebhookDelivery :=
  { body := [1], sigHeader := some "sha256=d1g3st",
    eventHeader := some "push", deliveryHeader := some "d-42",
    hookIdHeader := some "hook-1" }

/-- C4 (recorded bug): the live `/webhooks/github` endpoint performs no
deduplication — re-submitting the *same* delivery (same `X-GitHub-Delivery`
id `d-42`) creates a second scan job, and the endpoint's behaviour is
entirely independent of the delivery-id header (it is only logged), so no
retry can ever be recognised as already processed. -/
theorem C4_redelivery_not_deduplicated :
    (ScanAgent.github_webhook hmacX "s3cret" jsonParseX mapLookupX "id-A" 700
        deliveryX { pending := [], jobs := [] }).1 =
      ScanAgent.WebhookResponse.success "id-A" ∧
    (ScanAgent.github_webhook hmacX "s3cret" jsonParseX mapLookupX "id-B" 710
        deliveryX
        (ScanAgent.github_webhook hmacX "s3cret" jsonParseX mapLookupX "id-A"
          700 deliveryX { pending := [], jobs := [] }).2).1 =
      ScanAgent.WebhookResponse.success "id-B" ∧
    (ScanAgent.github_webhook hmacX "s3cret" jsonParseX mapLookupX "id-B" 710
        deliveryX
        (ScanAgent.github_webhook hmacX "s3cret" jsonParseX mapLookupX "id-A"
          700 deliveryX { pending := [], jobs := [] }).2).2.pending =
      ["id-A", "id-B"] ∧
    ScanAgent.github_webhook hmacX "s3cret" jsonParseX mapLookupX "id-A" 700
        { deliveryX with deliveryHeader := some "d-other" }
        { pending := [], jobs := [] } =
      ScanAgent.github_webhook hmacX "s3cret" jsonParseX mapLookupX "id-A" 700
        deliveryX { pending := [], jobs := [] } := by
  decide

/-! ## `scan-agent/fix_agent/workers/fixer.py` — branch-ref creation and
the fallback native push

Outbound HTTP status codes are explicit inputs; the requests a function
issues are returned as a trace, so "the client issued a force-update PATCH"
is a statement about the trace. -/

namespace Fixer

/-- A request issued against the git-refs API. -/
inductive RefRequest
  | createRef (ref : String) (sha : String)
  | patchRef (branch : String) (sha : String) (force : Bool)
deriving DecidableEq, Repr

/-- Source `FixWorker._update_branch_ref`: PATCH
`/repos/{owner}/{repo}/git/refs/heads/{branch}` with `{sha, force: true}`;
succeeds exactly on a 200 response. -/
def update_branch_ref (patchStatus : Nat) (branchName commitSha : String) :
    Bool × List RefRequest :=
  (patchStatus == 200, [RefRequest.patchRef branchName commitSha true])

/-- Source `FixWorker._create_or_update_branch_ref`: POST the new ref; 201 is
success; only a 422 ("already exists") falls through to the force-update
PATCH; every other status — including 409 — is a failure with no further
request. -/
def create_or_update_branch_ref (createStatus patchStatus : Nat)
    (branchName commitSha : String) : Bool × List RefRequest :=
  let post := RefRequest.createRef ("refs/heads/" ++ branchName) commitSha
  if createStatus == 201 then (true, [post])
  else if createStatus == 422 then
    let r := update_branch_ref patchStatus branchName commitSha
    (r.1, post :: r.2)
  else (false, [post])

/-- The tail of `FixWorker._push_branch_via_github_api` after the object
upload: a successful ref create/update is a successful push; otherwise the
worker falls back to the native push (whose outcome is an input). -/
def push_branch_ref_stage (uploadOk : Bool) (createStatus patchStatus : Nat)
    (branchName commitSha : String) (fallbackResult : Bool) : Bool :=
  if uploadOk then
    if (create_or_update_branch_ref createStatus patchStatus branchName
        commitSha).1 then true
    else fallbackResult
  else fallbackResult

/-- Source `FixWorker._parse_repository_url`, specialised to the regex semantics
on `/`-separated paths: accept `https://github.com/owner/repo` or
`git@github.com:owner/repo`, each with an optional `.git` and an optional
trailing `/`. -/
def parse_repository_url (repoUrl : String) : Option (String × String) :=
  let parseRest := fun (rest : String) =>
    let s1 := if strEndsWith rest "/" then strDropRight rest 1 else rest
    let s2 := if strEndsWith s1 ".git" then strDropRight s1 4 else s1
    match s2.data.splitOn '/' with
    | [ownerCs, repoCs] =>
      if ownerCs = [] ∨ repoCs = [] then none
      else some (String.mk ownerCs, String.mk repoCs)
    | _ => none
  if strStartsWith repoUrl "https://github.com/" then
    parseRest (strDrop repoUrl 19)
  else if strStartsWith repoUrl "git@github.com:" then
    parseRest (strDrop repoUrl 15)
  else none

/-- The git configuration state touched by the fallback push: the `origin`
remote URL. -/
structure GitRemote where
  remoteUrl : String
deriving DecidableEq, Repr

/-- Outcome of the `git push` subprocess (`check=True`: a non-zero exit
raises). -/
inductive PushOutcome
  | ok
  | raised
deriving DecidableEq, Repr

/-- Source `FixWorker._fallback_git_push`.  Inputs: the optional token and repo
URL, the push outcome as a function of the remote state at push time, and
the starting git state.  Returns the reported success, the final git
state, and the trace of `git remote set-url origin …` invocations.  The
source shape: read the original URL, set the token-embedding URL inside
`try`, push, and restore the original URL in `finally` — on the success
path, on the push-failure path (the raised error is then caught by the
outer handler, which returns `False`), and before the outer handler runs. -/
def fallback_git_push (accessToken : Option String) (repoUrl : Option String)
    (pushResult : GitRemote → PushOutcome) (branchName : String)
    (g : GitRemote) : Bool × GitRemote × List String :=
  match accessToken, repoUrl with
  | some token, some url =>
    match parse_repository_url url with
    | none => (false, g, [])
    | some (owner, repoName) =>
      let authUrl :=
        "https://" ++ token ++ "@github.com/" ++ owner ++ "/" ++ repoName ++ ".git"
      let originalUrl := g.remoteUrl
      let outcome := pushResult { remoteUrl := authUrl }
      let restored : GitRemote := { remoteUrl := originalUrl }
      match outcome with
      | .ok => (true, restored, [authUrl, originalUrl])
      | .raised => (false, restored, [authUrl, originalUrl])
  | _, _ => (false, g, [])

end Fixer

/-- C6 counterexample: when the ref-creation POST answers 409, the client
issues no PATCH at all and reports failure (even with a remote that would
answer the PATCH with 200) — contradicting the claim that a 409 is handled
like a 422 by force-updating the ref and succeeding. -/
theorem C6_counterexample :
    (Fixer.create_or_update_branch_ref 409 200 "fix-branch" "abc123").1 = false ∧
    (Fixer.create_or_update_branch_ref 409 200 "fix-branch" "abc123").2 =
      [Fixer.RefRequest.createRef "refs/heads/fix-branch" "abc123"] := by
  decide

/-- C6 as amended: only a 422 "already exists" response triggers the
force-update; the client then PATCHes the same ref with `force = true`,
the combined operation succeeds exactly when the PATCH answers 200, and a
successful PATCH makes the whole API push succeed (no fallback).  A 409 is
treated as a plain failure. -/
theorem C6_branch_ref_force_update (patchStatus : Nat)
    (branchName commitSha : String) (fallbackResult : Bool) :
    (Fixer.create_or_update_branch_ref 422 patchStatus branchName commitSha).2 =
      [Fixer.RefRequest.createRef ("refs/heads/" ++ branchName) commitSha,
       Fixer.RefRequest.patchRef branchName commitSha true] ∧
    ((Fixer.create_or_update_branch_ref 422 patchStatus branchName
        commitSha).1 = true ↔ patchStatus = 200) ∧
    Fixer.push_branch_ref_stage true 422 200 branchName commitSha
      fallbackResult = true := by
  refine ⟨rfl, ?_, rfl⟩
  unfold Fixer.create_or_update_branch_ref Fixer.update_branch_ref
  simp

/-- C7: whatever the inputs — token or URL missing, URL unparseable, push
succeeding, or the push subprocess raising — the final git state carries
the original remote URL: the token-embedding URL never survives the call.
Moreover, whenever the remote was rewritten at all, the trace is exactly
"set the authenticated URL, then restore the original". -/
theorem C7_remote_url_restored (accessToken repoUrl : Option String)
    (pushResult : Fixer.GitRemote → Fixer.PushOutcome) (branchName : String)
    (g : Fixer.GitRemote) :
    (Fixer.fallback_git_push accessToken repoUrl pushResult branchName
        g).2.1.remoteUrl = g.remoteUrl ∧
    ((Fixer.fallback_git_push accessToken repoUrl pushResult branchName
        g).2.2 = [] ∨
      ∃ a, (Fixer.fallback_git_push accessToken repoUrl pushResult branchName
        g).2.2 = [a, g.remoteUrl]) := by
  unfold Fixer.fallback_git_push
  cases accessToken with
  | none => exact ⟨rfl, Or.inl rfl⟩
  | some token =>
    cases repoUrl with
    | none => exact ⟨rfl, Or.inl rfl⟩
    | some url =>
      cases hp : Fixer.parse_repository_url url with
      | none =>
        simp only [hp]
        exact ⟨trivial, Or.inl trivial⟩
      | some pr =>
        obtain ⟨owner, repoName⟩ := pr
        simp only [hp]
        cases hr : pushResult { remoteUrl := "https://" ++ token ++
            "@github.com/" ++ owner ++ "/" ++ repoName ++ ".git" } with
        | ok =>
          simp only [hr]
          exact ⟨trivial, Or.inr ⟨_, rfl⟩⟩
        | raised =>
          simp only [hr]
          exact ⟨trivial, Or.inr ⟨_, rfl⟩⟩

/-! ## `scan-agent/fix_agent/workers/fixer.py` — `_upload_git_objects`

The local git object store is a finite map `sha ↦ object`.  Tree entries
record the entry type (`blob` or `tree`, as printed by `git ls-tree`;
submodule gitlinks are outside this model), and a *well-typed* repo is one
whose recorded entry types and commit references agree with the objects
they point at (dangling references are allowed — shallow clones).  `git
ls-tree -r` output is modelled by the set of blob-entry shas reachable
through subtrees (the Python code dumps them into a `set`, so ordering is
immaterial); a missing subtree makes the subprocess fail (`none`).
`git rev-list --parents -n 5` is modelled by a breadth-first enumeration of
up to five commits.  Uploading dispatches on the object's actual local
type (`git cat-file -t`) and silently skips objects absent locally. -/

namespace Fixer

/-- Entry type recorded inside a tree object. -/
inductive EType
  | blob
  | tree
deriving DecidableEq, Repr

/-- One entry of a tree object. -/
structure TreeEntry where
  etype : EType
  sha : String
deriving DecidableEq, Repr

/-- A git object. -/
inductive GitObj
  | blob
  | tree (entries : List TreeEntry)
  | commit (treeSha : String) (parents : List String)
deriving DecidableEq, Repr

/-- The local object store. -/
abbrev GitRepo := List (String × GitObj)

/-- Source `git cat-file` lookup. -/
def catFile (repo : GitRepo) (sha : String) : Option GitObj :=
  assocGet repo sha

/-- Holds `true` when the sha is absent locally or names a blob. -/
def isBlobOrMissing (repo : GitRepo) (sha : String) : Bool :=
  match catFile repo sha with
  | none => true
  | some .blob => true
  | some _ => false

/-- Holds `true` when the sha is absent locally or names a tree. -/
def isTreeOrMissing (repo : GitRepo) (sha : String) : Bool :=
  match catFile repo sha with
  | none => true
  | some (.tree _) => true
  | some _ => false

/-- Holds `true` when the sha is absent locally or names a commit. -/
def isCommitOrMissing (repo : GitRepo) (sha : String) : Bool :=
  match catFile repo sha with
  | none => true
  | some (.commit _ _) => true
  | some _ => false

/-- A tree entry is consistent when a blob-typed entry does not point at a
present non-blob object. -/
def entryOk (repo : GitRepo) (e : TreeEntry) : Bool :=
  match e.etype with
  | .blob => isBlobOrMissing repo e.sha
  | .tree => true

/-- Per-object consistency: tree entries are consistent and commit
references point at objects of the announced type (or at nothing). -/
def wellTypedObj (repo : GitRepo) : GitObj → Bool
  | .blob => true
  | .tree entries => entries.all (entryOk repo)
  | .commit t ps => isTreeOrMissing repo t && ps.all (fun p => isCommitOrMissing repo p)

/-- A repo is well-typed when every stored object is consistent. -/
def wellTyped (repo : GitRepo) : Bool :=
  repo.all (fun p => wellTypedObj repo p.2)

/-- The blob-entry shas of one tree level (the lines `git ls-tree` prints
for blob entries). -/
def blobsHere (entries : List TreeEntry) : List String :=
  entries.filterMap (fun e => if e.etype = EType.blob then some e.sha else none)

/-- The subtree shas of one tree level. -/
def subtreeShas (entries : List TreeEntry) : List String :=
  entries.filterMap (fun e => if e.etype = EType.tree then some e.sha else none)

/-- Read every named subtree; `none` when one is missing or is not a tree
(`git ls-tree -r` then exits non-zero and `check=True` raises). -/
def expandTrees (repo : GitRepo) : List String → Option (List TreeEntry)
  | [] => some []
  | sha :: rest =>
    match catFile repo sha with
    | some (.tree es) => (expandTrees repo rest).map (fun l => es ++ l)
    | _ => none

/-- Level-by-level recursive listing: the blob entries of this level plus
everything below, with a fuel bound on the nesting depth. -/
def lsTreeLevels (repo : GitRepo) : Nat → List TreeEntry → Option (List String)
  | 0, entries =>
    match subtreeShas entries with
    | [] => some (blobsHere entries)
    | _ :: _ => none
  | fuel + 1, entries =>
    match expandTrees repo (subtreeShas entries) with
    | none => none
    | some subEntries =>
      (lsTreeLevels repo fuel subEntries).map (fun l => blobsHere entries ++ l)

/-- Source `git ls-tree -r <sha>` restricted to the blob shas the Python loop
collects (`parts[2]` of each line). -/
def lsTreeBlobs (repo : GitRepo) (sha : String) : Option (List String) :=
  match catFile repo sha with
  | some (.tree es) => lsTreeLevels repo repo.length es
  | _ => none

/-- The parents recorded by a commit (empty for anything else). -/
def commitParents (repo : GitRepo) (sha : String) : List String :=
  match catFile repo sha with
  | some (.commit _ ps) => ps
  | _ => []

/-- The `tree …` line of `git cat-file -p <commit>`. -/
def commitTree (repo : GitRepo) (sha : String) : Option String :=
  match catFile repo sha with
  | some (.commit t _) => some t
  | _ => none

/-- Breadth-first enumeration of at most `n` commits, modelling the commits
listed by `git rev-list -n 5`. -/
def bfsCommits (repo : GitRepo) : Nat → List String → List String
  | 0, _ => []
  | _, [] => []
  | n + 1, c :: rest => c :: bfsCommits repo n (rest ++ commitParents repo c)

/-- The `rev-list --parents` lines: each listed commit with its parents. -/
def revLines (repo : GitRepo) (start : String) : List (String × List String) :=
  (bfsCommits repo 5 [start]).map (fun c => (c, commitParents repo c))

/-- Python `set.add` modelled on insertion-ordered lists. -/
def insertNew (l : List String) (x : String) : List String :=
  if x ∈ l then l else l ++ [x]

/-- Deduplicate (the `set(...)` the blob shas are poured into). -/
def dedupL (l : List String) : List String :=
  l.foldl insertNew []

/-- Process one `rev-list --parents` line: add every parent to the commit
set, and — when the parent is present locally and `cat-file -p` shows its
`tree` line — add that tree to the tree set. -/
def addLine (repo : GitRepo) (acc : List String × List String)
    (line : String × List String) : List String × List String :=
  line.2.foldl
    (fun tc p =>
      (insertNew tc.1 p,
       match commitTree repo p with
       | some pt => insertNew tc.2 pt
       | none => tc.2))
    acc

/-- The `{blobs, trees, commits}` upload sets of one push attempt. -/
structure UploadPlan where
  blobs : List String
  trees : List String
  commits : List String
deriving DecidableEq, Repr

/-- First half of `_upload_git_objects`: seed the tree/commit sets with the
head tree and commit, collect the blob shas from `ls-tree -r` (failure
aborts the whole routine), and add up to five generations of parent
commits and their trees. -/
def buildPlan (repo : GitRepo) (commitSha treeSha : String) :
    Option UploadPlan :=
  match lsTreeBlobs repo treeSha with
  | none => none
  | some bl =>
    let tc := (revLines repo commitSha).foldl (addLine repo) ([commitSha], [treeSha])
    some { blobs := dedupL bl, trees := tc.2, commits := tc.1 }

/-- The object kind actually uploaded for a sha. -/
inductive UploadKind
  | blob
  | tree
  | commit
deriving DecidableEq, Repr

/-- Source `_upload_git_object`: skip a sha that is absent locally (shallow
clone), otherwise upload it as whatever `cat-file -t` reports. -/
def uploadEvent (repo : GitRepo) (sha : String) : Option (UploadKind × String) :=
  match catFile repo sha with
  | none => none
  | some .blob => some (UploadKind.blob, sha)
  | some (.tree _) => some (UploadKind.tree, sha)
  | some (.commit _ _) => some (UploadKind.commit, sha)

/-- Second half of `_upload_git_objects`: the three sequential upload
loops — all of `blobs`, then all of `trees`, then all of `commits`
(failures are collected, never aborting the sequence). -/
def uploadTrace (repo : GitRepo) (plan : UploadPlan) :
    List (UploadKind × String) :=
  plan.blobs.filterMap (uploadEvent repo) ++
    plan.trees.filterMap (uploadEvent repo) ++
    plan.commits.filterMap (uploadEvent repo)

end Fixer

namespace Fixer

theorem catFile_mem {repo : GitRepo} {sha : String} {o : GitObj}
    (h : catFile repo sha = some o) : (sha, o) ∈ repo := by
  induction repo with
  | nil => cases h
  | cons p rest ih =>
    obtain ⟨k, v⟩ := p
    simp only [catFile, assocGet] at h
    by_cases hk : k = sha
    · rw [if_pos hk] at h
      injection h with h
      rw [hk, h]
      exact List.mem_cons_self _ _
    · rw [if_neg hk] at h
      exact List.mem_cons_of_mem _ (ih h)

theorem wellTyped_obj {repo : GitRepo} (hw : wellTyped repo = true)
    {sha : String} {o : GitObj} (h : catFile repo sha = some o) :
    wellTypedObj repo o = true := by
  have hm := catFile_mem h
  exact List.all_eq_true.mp hw ⟨sha, o⟩ hm

theorem blobsHere_sound {repo : GitRepo} {entries : List TreeEntry}
    (he : ∀ e ∈ entries, entryOk repo e = true) :
    ∀ sha ∈ blobsHere entries, isBlobOrMissing repo sha = true := by
  intro sha hs
  rw [blobsHere, List.mem_filterMap] at hs
  obtain ⟨e, hem, hfe⟩ := hs
  by_cases hb : e.etype = EType.blob
  · rw [if_pos hb] at hfe
    injection hfe with hfe
    have := he e hem
    rw [entryOk, hb] at this
    rw [← hfe]
    exact this
  · rw [if_neg hb] at hfe
    cases hfe

theorem expandTrees_entryOk {repo : GitRepo} (hw : wellTyped repo = true) :
    ∀ shas subEntries, expandTrees repo shas = some subEntries →
      ∀ e ∈ subEntries, entryOk repo e = true := by
  intro shas
  induction shas with
  | nil =>
    intro subEntries h e he
    simp only [expandTrees] at h
    injection h with h
    rw [← h] at he
    cases he
  | cons sha rest ih =>
    intro subEntries h e he
    simp only [expandTrees] at h
    cases hc : catFile repo sha with
    | none => rw [hc] at h; cases h
    | some o =>
      rw [hc] at h
      cases o with
      | blob => cases h
      | commit t ps => cases h
      | tree es =>
        cases hrest : expandTrees repo rest with
        | none => rw [hrest] at h; cases h
        | some l2 =>
          rw [hrest] at h
          simp only [Option.map_some'] at h
          injection h with h
          rw [← h] at he
          rcases List.mem_append.mp he with hin | hin
          · have hobj := wellTyped_obj hw hc
            rw [wellTypedObj] at hobj
            exact List.all_eq_true.mp hobj e hin
          · exact ih l2 hrest e hin

theorem lsTreeLevels_sound {repo : GitRepo} (hw : wellTyped repo = true) :
    ∀ fuel entries out,
      (∀ e ∈ entries, entryOk repo e = true) →
      lsTreeLevels repo fuel entries = some out →
      ∀ sha ∈ out, isBlobOrMissing repo sha = true := by
  intro fuel
  induction fuel with
  | zero =>
    intro entries out he h sha hs
    simp only [lsTreeLevels] at h
    cases hsub : subtreeShas entries with
    | nil =>
      rw [hsub] at h
      injection h with h
      rw [← h] at hs
      exact blobsHere_sound he sha hs
    | cons a l =>
      rw [hsub] at h
      cases h
  | succ fuel ih =>
    intro entries out he h sha hs
    simp only [lsTreeLevels] at h
    cases hex : expandTrees repo (subtreeShas entries) with
    | none => rw [hex] at h; cases h
    | some subEntries =>
      rw [hex] at h
      dsimp only at h
      cases hrec : lsTreeLevels repo fuel subEntries with
      | none => rw [hrec] at h; cases h
      | some l2 =>
        rw [hrec] at h
        simp only [Option.map_some'] at h
        injection h with h
        rw [← h] at hs
        rcases List.mem_append.mp hs with hin | hin
        · exact blobsHere_sound he sha hin
        · exact ih subEntries l2
            (expandTrees_entryOk hw (subtreeShas entries) subEntries hex) hrec sha hin

theorem lsTreeBlobs_sound {repo : GitRepo} (hw : wellTyped repo = true)
    {sha : String} {out : List String} (h : lsTreeBlobs repo sha = some out) :
    isTreeOrMissing repo sha = true ∧
      ∀ b ∈ out, isBlobOrMissing repo b = true := by
  simp only [lsTreeBlobs] at h
  cases hc : catFile repo sha with
  | none => rw [hc] at h; cases h
  | some o =>
    rw [hc] at h
    cases o with
    | blob => cases h
    | commit t ps => cases h
    | tree es =>
      have hok : ∀ e ∈ es, entryOk repo e = true := by
        have hobj := wellTyped_obj hw hc
        rw [wellTypedObj] at hobj
        exact fun e he => List.all_eq_true.mp hobj e he
      refine ⟨by rw [isTreeOrMissing, hc], ?_⟩
      exact lsTreeLevels_sound hw repo.length es out hok h

theorem mem_insertNew {l : List String} {x y : String}
    (h : x ∈ insertNew l y) : x ∈ l ∨ x = y := by
  rw [insertNew] at h
  by_cases hy : y ∈ l
  · rw [if_pos hy] at h
    exact Or.inl h
  · rw [if_neg hy] at h
    rcases List.mem_append.mp h with hin | hin
    · exact Or.inl hin
    · exact Or.inr (List.mem_singleton.mp hin)

theorem mem_dedupL {l : List String} {x : String} (h : x ∈ dedupL l) :
    x ∈ l := by
  have key : ∀ (l : List String) (acc : List String),
      x ∈ l.foldl insertNew acc → x ∈ acc ∨ x ∈ l := by
    intro l
    induction l with
    | nil => intro acc h; exact Or.inl h
    | cons a rest ih =>
      intro acc h
      rcases ih (insertNew acc a) h with hin | hin
      · rcases mem_insertNew hin with hin2 | hin2
        · exact Or.inl hin2
        · exact Or.inr (hin2 ▸ List.mem_cons_self a rest)
      · exact Or.inr (List.mem_cons_of_mem a hin)
  rcases key l [] h with hin | hin
  · cases hin
  · exact hin

theorem commitParents_ok {repo : GitRepo} (hw : wellTyped repo = true)
    (c : String) : ∀ p ∈ commitParents repo c, isCommitOrMissing repo p = true := by
  intro p hp
  rw [commitParents] at hp
  cases hc : catFile repo c with
  | none => rw [hc] at hp; cases hp
  | some o =>
    rw [hc] at hp
    cases o with
    | blob => cases hp
    | tree es => cases hp
    | commit t ps =>
      have hobj := wellTyped_obj hw hc
      rw [wellTypedObj, Bool.and_eq_true] at hobj
      exact List.all_eq_true.mp hobj.2 p hp

theorem commitTree_ok {repo : GitRepo} (hw : wellTyped repo = true)
    {p pt : String} (h : commitTree repo p = some pt) :
    isTreeOrMissing repo pt = true := by
  rw [commitTree] at h
  cases hc : catFile repo p with
  | none => rw [hc] at h; cases h
  | some o =>
    rw [hc] at h
    cases o with
    | blob => cases h
    | tree es => cases h
    | commit t ps =>
      injection h with h
      have hobj := wellTyped_obj hw hc
      rw [wellTypedObj, Bool.and_eq_true] at hobj
      rw [← h]
      exact hobj.1

/-- The inner fold over one line's parents preserves the two typing
invariants on the accumulated commit and tree sets. -/
theorem addLine_inv {repo : GitRepo} (hw : wellTyped repo = true)
    (ps : List String) (hps : ∀ p ∈ ps, isCommitOrMissing repo p = true) :
    ∀ (acc : List String × List String),
      (∀ x ∈ acc.1, isCommitOrMissing repo x = true) →
      (∀ x ∈ acc.2, isTreeOrMissing repo x = true) →
      (∀ x ∈ (addLine repo acc (("", ps) : String × List String)).1,
          isCommitOrMissing repo x = true) ∧
      (∀ x ∈ (addLine repo acc (("", ps) : String × List String)).2,
          isTreeOrMissing repo x = true) := by
  simp only [addLine]
  induction ps with
  | nil =>
    intro acc hc ht
    exact ⟨hc, ht⟩
  | cons p rest ih =>
    intro acc hc ht
    simp only [List.foldl_cons]
    have hp := hps p (List.mem_cons_self p rest)
    have hps' : ∀ q ∈ rest, isCommitOrMissing repo q = true :=
      fun q hq => hps q (List.mem_cons_of_mem p hq)
    refine ih hps' _ ?_ ?_
    · intro x hx
      rcases mem_insertNew hx with hin | hin
      · exact hc x hin
      · rw [hin]; exact hp
    · intro x hx
      cases hct : commitTree repo p with
      | none =>
        rw [hct] at hx
        exact ht x hx
      | some pt =>
        rw [hct] at hx
        rcases mem_insertNew hx with hin | hin
        · exact ht x hin
        · rw [hin]; exact commitTree_ok hw hct

/-- The outer fold over all `rev-list` lines preserves both invariants. -/
theorem foldl_addLine_inv {repo : GitRepo} (hw : wellTyped repo = true) :
    ∀ (lines : List (String × List String)),
      (∀ ln ∈ lines, ∀ p ∈ ln.2, isCommitOrMissing repo p = true) →
      ∀ (acc : List String × List String),
        (∀ x ∈ acc.1, isCommitOrMissing repo x = true) →
        (∀ x ∈ acc.2, isTreeOrMissing repo x = true) →
        (∀ x ∈ (lines.foldl (addLine repo) acc).1, isCommitOrMissing repo x = true) ∧
        (∀ x ∈ (lines.foldl (addLine repo) acc).2, isTreeOrMissing repo x = true) := by
  intro lines
  induction lines with
  | nil =>
    intro _ acc hc ht
    exact ⟨hc, ht⟩
  | cons ln rest ih =>
    intro hlines acc hc ht
    simp only [List.foldl_cons]
    have hln : ∀ p ∈ ln.2, isCommitOrMissing repo p = true :=
      hlines ln (List.mem_cons_self ln rest)
    have hrest : ∀ l2 ∈ rest, ∀ p ∈ l2.2, isCommitOrMissing repo p = true :=
      fun l2 hl2 => hlines l2 (List.mem_cons_of_mem ln hl2)
    have hstep := addLine_inv hw ln.2 hln acc hc ht
    have harg : addLine repo acc ln = addLine repo acc ("", ln.2) := by
      simp only [addLine]
    rw [harg]
    exact ih hrest _ hstep.1 hstep.2

/-- The sets `buildPlan` produces are correctly typed: every member of
`blobs` is a blob or absent, of `trees` a tree or absent, of `commits` a
commit or absent. -/
theorem buildPlan_sound {repo : GitRepo} {commitSha treeSha : String}
    {plan : UploadPlan} (hw : wellTyped repo = true)
    (hcs : isCommitOrMissing repo commitSha = true)
    (hp : buildPlan repo commitSha treeSha = some plan) :
    (∀ x ∈ plan.blobs, isBlobOrMissing repo x = true) ∧
    (∀ x ∈ plan.trees, isTreeOrMissing repo x = true) ∧
    (∀ x ∈ plan.commits, isCommitOrMissing repo x = true) := by
  rw [buildPlan] at hp
  cases hls : lsTreeBlobs repo treeSha with
  | none => rw [hls] at hp; cases hp
  | some bl =>
    rw [hls] at hp
    dsimp only at hp
    injection hp with hp
    obtain ⟨hts, hbl⟩ := lsTreeBlobs_sound hw hls
    have hlines : ∀ ln ∈ revLines repo commitSha,
        ∀ p ∈ ln.2, isCommitOrMissing repo p = true := by
      intro ln hln p hpm
      rw [revLines, List.mem_map] at hln
      obtain ⟨c, _, hc⟩ := hln
      rw [← hc] at hpm
      exact commitParents_ok hw c p hpm
    have hfold := foldl_addLine_inv hw (revLines repo commitSha) hlines
      ([commitSha], [treeSha])
      (by intro x hx; rw [List.mem_singleton] at hx; rw [hx]; exact hcs)
      (by intro x hx; rw [List.mem_singleton] at hx; rw [hx]; exact hts)
    refine ⟨?_, ?_, ?_⟩
    · intro x hx
      rw [← hp] at hx
      exact hbl x (mem_dedupL hx)
    · intro x hx
      rw [← hp] at hx
      exact hfold.2 x hx
    · intro x hx
      rw [← hp] at hx
      exact hfold.1 x hx

theorem filterMap_uploadEvent_kind {repo : GitRepo} {l : List String}
    {k : UploadKind}
    (hall : ∀ x ∈ l, (match catFile repo x with
      | none => true
      | some .blob => decide (k = UploadKind.blob)
      | some (.tree _) => decide (k = UploadKind.tree)
      | some (.commit _ _) => decide (k = UploadKind.commit)) = true) :
    ∀ e ∈ l.filterMap (uploadEvent repo), e.1 = k := by
  intro e he
  rw [List.mem_filterMap] at he
  obtain ⟨a, ham, hfa⟩ := he
  have := hall a ham
  rw [uploadEvent] at hfa
  cases hc : catFile repo a with
  | none => rw [hc] at hfa; cases hfa
  | some o =>
    rw [hc] at hfa
    rw [hc] at this
    cases o with
    | blob =>
      injection hfa with hfa
      rw [← hfa]
      exact (of_decide_eq_true this).symm
    | tree es =>
      injection hfa with hfa
      rw [← hfa]
      exact (of_decide_eq_true this).symm
    | commit t ps =>
      injection hfa with hfa
      rw [← hfa]
      exact (of_decide_eq_true this).symm

end Fixer

/-- C5: for every well-typed local repository whose head sha is a commit
(or absent), the upload plan `_upload_git_objects` builds — the blobs of
the head tree, the head tree and commit, and up to five generations of
parent commits/trees — is uploaded as three phases in strict dependency
order: the trace splits as blob uploads, then tree uploads, then commit
uploads. -/
theorem C5_upload_order (repo : Fixer.GitRepo) (commitSha treeSha : String)
    (plan : Fixer.UploadPlan) (hw : Fixer.wellTyped repo = true)
    (hcs : Fixer.isCommitOrMissing repo commitSha = true)
    (hp : Fixer.buildPlan repo commitSha treeSha = some plan) :
    ∃ bs ts cs,
      Fixer.uploadTrace repo plan = bs ++ ts ++ cs ∧
      (∀ e ∈ bs, e.1 = Fixer.UploadKind.blob) ∧
      (∀ e ∈ ts, e.1 = Fixer.UploadKind.tree) ∧
      (∀ e ∈ cs, e.1 = Fixer.UploadKind.commit) := by
  obtain ⟨hb, ht, hc⟩ := Fixer.buildPlan_sound hw hcs hp
  refine ⟨plan.blobs.filterMap (Fixer.uploadEvent repo),
    plan.trees.filterMap (Fixer.uploadEvent repo),
    plan.commits.filterMap (Fixer.uploadEvent repo), rfl, ?_, ?_, ?_⟩
  · refine Fixer.filterMap_uploadEvent_kind ?_
    intro x hx
    have := hb x hx
    rw [Fixer.isBlobOrMissing] at this
    cases hcf : Fixer.catFile repo x with
    | none => rfl
    | some o => rw [hcf] at this; cases o <;> simp_all
  · refine Fixer.filterMap_uploadEvent_kind ?_
    intro x hx
    have := ht x hx
    rw [Fixer.isTreeOrMissing] at this
    cases hcf : Fixer.catFile repo x with
    | none => rfl
    | some o => rw [hcf] at this; cases o <;> simp_all
  · refine Fixer.filterMap_uploadEvent_kind ?_
    intro x hx
    have := hc x hx
    rw [Fixer.isCommitOrMissing] at this
    cases hcf : Fixer.catFile repo x with
    | none => rfl
    | some o => rw [hcf] at this; cases o <;> simp_all

/-- A concrete well-typed repository: head commit `c1` with tree `t1`
holding three blobs, one parent commit `c0` with empty tree `t0`. -/
def repoW : Fixer.GitRepo :=
  [("c1", Fixer.GitObj.commit "t1" ["c0"]),
   ("t1", Fixer.GitObj.tree
      [{ etype := Fixer.EType.blob, sha := "b1" },
       { etype := Fixer.EType.blob, sha := "b2" },
       { etype := Fixer.EType.blob, sha := "b3" }]),
   ("b1", Fixer.GitObj.blob), ("b2", Fixer.GitObj.blob),
   ("b3", Fixer.GitObj.blob),
   ("c0", Fixer.GitObj.commit "t0" []),
   ("t0", Fixer.GitObj.tree [])]

/-- The plan `_upload_git_objects` computes on `repoW`. -/
def planW : Fixer.UploadPlan :=
  { blobs := ["b1", "b2", "b3"], trees := ["t1", "t0"],
    commits := ["c1", "c0"] }

/-- C5 witness: the ordering theorem applied to the concrete repository
with a tree referencing three blobs. -/
theorem C5_upload_order_witness :
    ∃ bs ts cs,
      Fixer.uploadTrace repoW planW = bs ++ ts ++ cs ∧
      (∀ e ∈ bs, e.1 = Fixer.UploadKind.blob) ∧
      (∀ e ∈ ts, e.1 = Fixer.UploadKind.tree) ∧
      (∀ e ∈ cs, e.1 = Fixer.UploadKind.commit) :=
  C5_upload_order repoW "c1" "t1" planW (by decide) (by decide) (by decide)

end Fortify
